import Mathlib

/-!
# Verification of the data-preprocessing pipeline

Shallow embedding of `src/data_preprocessor.py` (class `DataPreprocessor`).

Modelling conventions:
* A pandas `DataFrame` is a `Table`: an ordered list of column names plus an
  ordered list of rows, each row a list of cells aligned with the column names.
  `reset_index(drop=True)` is implicit: rows are positional, so the index is
  always 0,1,2,….
* A cell is `null` (pandas `NaN`/`NaT`), a rational number (Python floats are
  modelled as exact rationals), or a timestamp.
* Pandas comparison semantics are modelled per cell: comparing `NaN` with a
  number by an ordering operator yields `False` (`!=` yields `True`);
  applying an ordering operator to a datetime cell and a number raises
  `TypeError`, modelled as `Option.none` propagating out of the mask
  computation.  (Pandas types whole columns; we type cells, which agrees on
  every state reachable from a load.)
* A Python method that returns `(success, message)` is modelled as returning
  its new state together with a `Bool` success flag; the message is dropped.
  The `self.stats` bookkeeping dictionary is not modelled (no claim reads it).
-/

namespace DataPre

/-- A timestamp: a day number (the date part, days since an arbitrary epoch)
plus hour/minute/second/microsecond fields, mirroring Python `datetime`
attribute access (`dt.hour`, `dt.minute`, `dt.second`, `dt.microsecond`). -/
structure DateTime where
  day : Int
  hour : Nat
  minute : Nat
  second : Nat
  micro : Nat
deriving DecidableEq, Repr

/-- A table cell: missing (`NaN`/`NaT`), a number, or a timestamp. -/
inductive Cell where
  | null : Cell
  | num : ℚ → Cell
  | time : DateTime → Cell
deriving DecidableEq, Repr

/-- A pandas DataFrame: ordered column names and rows (lists of cells aligned
with the column names).  Row indices are positional. -/
structure Table where
  colNames : List String
  rows : List (List Cell)
deriving DecidableEq, Repr

/-- Index of a column name inside the table, `none` if absent
(a `KeyError` site in the Python code). -/
def Table.colIdx (t : Table) (c : String) : Option Nat :=
  t.colNames.findIdx? (fun n => n = c)

/-- The cells of column `c`, in row order (`df[c]`). -/
def Table.col (t : Table) (c : String) : Option (List Cell) :=
  (t.colIdx c).map (fun i => t.rows.map (fun r => r.getD i Cell.null))

/-- The mutable state of a `DataPreprocessor` object: the fields set by
`load_data` (`original_df`, `processed_df`, `columns`, `numeric_columns`,
`date_column`). -/
structure State where
  original : Option Table
  processed : Option Table
  columns : List String
  numericColumns : List String
  dateColumn : Option String
deriving DecidableEq, Repr

/-- Filter operator strings accepted by `apply_filters`. -/
inductive FOp where
  | ge | le | gt | lt | eq | ne | range
deriving DecidableEq, Repr

/-- One filter predicate `{'column': …, 'operator': …, 'value'/'min'/'max': …}`.
Missing `value` is modelled as `none` (the code reads `f.get('value', 0)`);
missing `min`/`max` as `none` (the code substitutes `float('-inf')`/`inf`). -/
structure Filter where
  column : String
  op : FOp
  value : Option ℚ
  min : Option ℚ
  max : Option ℚ
deriving DecidableEq, Repr

/-- Pandas comparison of one cell against a filter, following
`apply_filters`: `none` models a `TypeError` (ordering comparison between a
datetime cell and a number, including the `range` bounds `±inf`), otherwise
`some` of the elementwise boolean.  `NaN` compares `False` under every
operator except `!=`, where it compares `True`; `==`/`!=` between a datetime
and a number yield `False`/`True` without raising. -/
def cellCmp (c : Cell) (f : Filter) : Option Bool :=
  match f.op with
  | FOp.ge =>
    match c with
    | Cell.num q => some (decide (q ≥ f.value.getD 0))
    | Cell.null => some false
    | Cell.time _ => none
  | FOp.le =>
    match c with
    | Cell.num q => some (decide (q ≤ f.value.getD 0))
    | Cell.null => some false
    | Cell.time _ => none
  | FOp.gt =>
    match c with
    | Cell.num q => some (decide (q > f.value.getD 0))
    | Cell.null => some false
    | Cell.time _ => none
  | FOp.lt =>
    match c with
    | Cell.num q => some (decide (q < f.value.getD 0))
    | Cell.null => some false
    | Cell.time _ => none
  | FOp.eq =>
    match c with
    | Cell.num q => some (decide (q = f.value.getD 0))
    | Cell.null => some false
    | Cell.time _ => some false
  | FOp.ne =>
    match c with
    | Cell.num q => some (decide (q ≠ f.value.getD 0))
    | Cell.null => some true
    | Cell.time _ => some true
  | FOp.range =>
    match c with
    | Cell.num q =>
      some ((match f.min with
             | none => true
             | some m => decide (q ≥ m)) &&
            (match f.max with
             | none => true
             | some m => decide (q ≤ m)))
    | Cell.null => some false
    | Cell.time _ => none

/-- Sequence an option-valued map over a list (`none` as soon as any element
maps to `none`): exception propagation through a vectorized evaluation. -/
def mapO {α β : Type} (f : α → Option β) : List α → Option (List β)
  | [] => some []
  | a :: l => (f a).bind (fun b => (mapO f l).map (fun bs => b :: bs))

/-- Evaluate one filter on one row: column lookup (`KeyError` → `none`)
followed by the cell comparison. -/
def cellTest (tbl : Table) (f : Filter) (row : List Cell) : Option Bool :=
  match tbl.colIdx f.column with
  | none => none
  | some i => cellCmp (row.getD i Cell.null) f

/-- The mask value of one row under the whole filter list: the loop
`mask &= …` of `apply_filters`, restricted to this row.  A filter whose
column is not in `cols` is skipped (`continue`); `none` models an exception
raised while computing the mask. -/
def rowMask (cols : List String) (tbl : Table) (fs : List Filter)
    (row : List Cell) : Option Bool :=
  fs.foldl
    (fun acc f =>
      if f.column ∈ cols then
        acc.bind (fun b => (cellTest tbl f row).map (fun c => b && c))
      else acc)
    (some true)

/-- `apply_filters` (src/data_preprocessor.py lines 135–195).
Returns the new state and the success flag.  Control flow of the source:
missing `original_df` → early failure; `processed_df = original_df.copy()`;
mask computation (a `TypeError`/`KeyError` there aborts with `processed`
left as the full copy); `processed_df = processed_df[mask].reset_index(…)`;
finally the success message divides `after_count` by `before_count`, which
raises `ZeroDivisionError` on a zero-row `original` — so the call reports
failure even though `processed` has already been replaced. -/
def applyFilters (st : State) (fs : List Filter) : State × Bool :=
  match st.original with
  | none => (st, false)
  | some orig =>
    let st1 : State := { st with processed := some orig }
    match mapO (rowMask st.columns orig fs) orig.rows with
    | none => (st1, false)
    | some mask =>
      let newRows := (orig.rows.zip mask).filterMap
        (fun p => if p.2 then some p.1 else none)
      let st2 : State := { st with processed := some { orig with rows := newRows } }
      if orig.rows.length = 0 then (st2, false) else (st2, true)

/-- The numeric value of a cell, if any. -/
def cellNum : Cell → Option ℚ
  | Cell.num q => some q
  | _ => none

/-- The non-null numeric values of a list of cells, in order: what pandas
statistics (`mean`, `std`, `quantile`) see after skipping `NaN`. -/
def nonNullNums (vals : List Cell) : List ℚ :=
  vals.filterMap cellNum

/-- Insert into a sorted list (ascending). -/
def insertSorted (x : ℚ) : List ℚ → List ℚ
  | [] => [x]
  | y :: ys => if x ≤ y then x :: y :: ys else y :: insertSorted x ys

/-- Sort ascending (insertion sort). -/
def sortQ (xs : List ℚ) : List ℚ :=
  xs.foldr insertSorted []

/-- `Series.quantile(p)` with pandas' default linear interpolation: for the
sorted values `s` of length `n`, position `h = p·(n−1)`, result
`s[⌊h⌋] + (h−⌊h⌋)·(s[⌊h⌋+1] − s[⌊h⌋])`.  Meaningful only for nonempty input
(pandas returns `NaN` on empty input; callers guard that case). -/
def quantile (xs : List ℚ) (p : ℚ) : ℚ :=
  let s := sortQ xs
  let h : ℚ := p * ((s.length : ℚ) - 1)
  let i : Nat := (Int.floor h).toNat
  let g : ℚ := h - (Int.floor h : ℤ)
  s.getD i 0 + g * (s.getD (i + 1) 0 - s.getD i 0)

/-- Sample mean `Series.mean()` over the non-null values. -/
def qmean (xs : List ℚ) : ℚ :=
  xs.sum / (xs.length : ℚ)

/-- Sample variance with `ddof = 1`: `Series.std()` is its square root.
Meaningful only for `xs.length ≥ 2` (pandas returns `NaN` otherwise). -/
def qvar (xs : List ℚ) : ℚ :=
  ((xs.map (fun x => (x - qmean xs) ^ 2)).sum) / ((xs.length : ℚ) - 1)

/-- The sigma multiplier: `sigma_map.get(method, 2.5)` — an unrecognized
method string falls back to 2.5. -/
def sigmaK (method : String) : ℚ :=
  if method = "2sigma" then 2
  else if method = "2.5sigma" then 5 / 2
  else if method = "3sigma" then 3
  else 5 / 2

/-- Outlier flag of one cell under a σ-method, given the column's non-null
values `nn`.  The source tests `x < mean − k·std ∨ x > mean + k·std` with
`std = sqrt(var)`; over the reals that is equivalent to
`(x − mean)² > k²·var`, which is how we state it to stay in exact rational
arithmetic.  With fewer than two non-null values `std` is `NaN` and every
float comparison with it is `False`, so nothing is flagged. -/
def sigmaFlag (nn : List ℚ) (k : ℚ) (c : Cell) : Bool :=
  if nn.length ≤ 1 then false
  else
    match c with
    | Cell.num x => decide ((x - qmean nn) ^ 2 > k ^ 2 * qvar nn)
    | _ => false

/-- Outlier flag of one cell under the IQR method, given the column's
non-null values `nn`: `x < Q1 − 1.5·IQR ∨ x > Q3 + 1.5·IQR`.  With no
non-null value the quantiles are `NaN` and nothing is flagged. -/
def iqrFlag (nn : List ℚ) (c : Cell) : Bool :=
  if nn.length = 0 then false
  else
    let q1 := quantile nn (1 / 4)
    let q3 := quantile nn (3 / 4)
    let iqr := q3 - q1
    match c with
    | Cell.num x => decide (x < q1 - 3 / 2 * iqr ∨ x > q3 + 3 / 2 * iqr)
    | _ => false

/-- The outlier mask of one column (`(data < lower) | (data > upper)`),
dispatching on the method string exactly as the source does: `'iqr'` uses
quantile bounds, everything else the σ-bounds with `sigmaK`. -/
def colOutlierMask (method : String) (vals : List Cell) : List Bool :=
  let nn := nonNullNums vals
  if method = "iqr" then vals.map (iqrFlag nn)
  else vals.map (sigmaFlag nn (sigmaK method))

/-- One iteration of the `remove_outliers` column loop on the current
`processed` table: look the column up (`KeyError` → `none`), compute the
mask from the column as it currently stands, then either null the flagged
cells (`action = 'nan'`), drop the flagged rows (`action = 'drop'`), or do
nothing (any other action string still counts the flags).  Returns the new
table and `outlier_mask.sum()`. -/
def outlierStep (method action : String) (tbl : Table) (c : String) :
    Option (Table × Nat) :=
  match tbl.colIdx c with
  | none => none
  | some i =>
    let vals := tbl.rows.map (fun r => r.getD i Cell.null)
    let mask := colOutlierMask method vals
    let cnt := mask.count true
    if action = "nan" then
      let nulled := (tbl.rows.zip mask).map
        (fun p => if p.2 then p.1.set i Cell.null else p.1)
      some ({ tbl with rows := nulled }, cnt)
    else if action = "drop" then
      let kept := (tbl.rows.zip mask).filterMap
        (fun p => if p.2 then none else some p.1)
      some ({ tbl with rows := kept }, cnt)
    else
      some (tbl, cnt)

/-- The `for col in target_columns` loop of `remove_outliers`: columns not in
`numeric_columns` are skipped; a `KeyError` aborts the loop, leaving the
mutations already made in place (the `except` branch returns failure). -/
def removeOutliersGo (method action : String) (numCols : List String) :
    Table → List String → Table × Nat × Bool
  | tbl, [] => (tbl, 0, true)
  | tbl, c :: cs =>
    if c ∈ numCols then
      match outlierStep method action tbl c with
      | none => (tbl, 0, false)
      | some (tbl', k) =>
        let r := removeOutliersGo method action numCols tbl' cs
        (r.1, k + r.2.1, r.2.2)
    else removeOutliersGo method action numCols tbl cs

/-- `columns if columns else self.numeric_columns`: `None` and the falsy
empty list both default to all detected numeric columns. -/
def targetCols (numCols : List String) : Option (List String) → List String
  | none => numCols
  | some l => if l = [] then numCols else l

/-- `remove_outliers` (src/data_preprocessor.py lines 197–277).  Operates on
the current `processed` table; `columns = none` defaults to all detected
numeric columns (the source treats an empty list the same way, since an
empty Python list is falsy).  Returns the new state, the total outlier
count, and the success flag.  The trailing `reset_index(drop=True)` is a
no-op in the positional row model. -/
def removeOutliers (st : State) (method : String)
    (columns : Option (List String)) (action : String) :
    State × Nat × Bool :=
  match st.processed with
  | none => (st, 0, false)
  | some tbl =>
    let r := removeOutliersGo method action st.numericColumns tbl
      (targetCols st.numericColumns columns)
    ({ st with processed := some r.1 }, r.2.1, r.2.2)

/-- Python's `round` on a half-integer rounds to the nearest even integer
(banker's rounding); elsewhere to the nearest integer. -/
def roundHalfEven (q : ℚ) : Int :=
  let f : Int := Int.floor q
  let frac : ℚ := q - (f : ℚ)
  if frac < 1 / 2 then f
  else if frac > 1 / 2 then f + 1
  else if f % 2 = 0 then f else f + 1

/-- One row of `normalize_timestamps` (src/data_preprocessor.py lines
354–380): total minutes within the day (seconds and microseconds included),
rounded to the nearest multiple of `interval` with Python `round`; totals at
or past 1440 carry into a day increment; the result keeps the date, gets the
snapped hour and minute, and zeroes seconds and microseconds.  (The snapped
total is 2·720·interval at most, so `hour < 24` always and the `except`
around `dt.replace` never fires; the float arithmetic of the source is
modelled exactly over ℚ.)  Meaningful for `interval ≥ 1`; `interval = 0`
raises `ZeroDivisionError` in the source and is handled by the caller. -/
def snapDT (interval : Nat) (dt : DateTime) : DateTime :=
  let total : ℚ := (dt.hour : ℚ) * 60 + (dt.minute : ℚ)
    + (dt.second : ℚ) / 60 + (dt.micro : ℚ) / 60000000
  let snapped : Int := roundHalfEven (total / (interval : ℚ)) * (interval : Int)
  let s : Nat := snapped.toNat
  { day := dt.day + (s / 1440 : Nat)
    hour := s % 1440 / 60
    minute := s % 1440 % 60
    second := 0
    micro := 0 }

/-- The timestamp value of a cell, if any. -/
def cellTime : Cell → Option DateTime
  | Cell.time t => some t
  | _ => none

/-- Read the date column as a list of timestamps; `none` if any cell is not a
parsed timestamp (a `NaT` in that column makes the loop body of the source
raise on `round(nan)`, failing the whole call; a raw unparsed column is not
reachable for a column the source has converted with `pd.to_datetime`). -/
def readTimes (tbl : Table) (i : Nat) : Option (List DateTime) :=
  mapO (fun r => cellTime (r.getD i Cell.null)) tbl.rows

/-- Write `vals` into column `i` of the rows, one per row. -/
def writeTimes (rows : List (List Cell)) (i : Nat) (vals : List DateTime) :
    List (List Cell) :=
  (rows.zip vals).map (fun p => p.1.set i (Cell.time p.2))

/-- `normalize_timestamps` (grid snap).  Fails without mutation when
`processed` or the date column is missing, when the column cannot be read as
timestamps, or when `interval = 0` (`ZeroDivisionError` inside the loop,
before the column assignment). -/
def normalizeTimestamps (st : State) (interval : Nat) : State × Bool :=
  match st.processed, st.dateColumn with
  | some tbl, some dc =>
    match tbl.colIdx dc with
    | none => (st, false)
    | some i =>
      match readTimes tbl i with
      | none => (st, false)
      | some ts =>
        if interval = 0 then (st, false)
        else
          let newRows := writeTimes tbl.rows i (ts.map (snapDT interval))
          ({ st with processed := some { tbl with rows := newRows } }, true)
  | _, _ => (st, false)

/-- `start + timedelta(minutes = m)` for a whole number of minutes: seconds
and microseconds are untouched, overflow past 1440 minutes carries into the
day number. -/
def addMinutes (dt : DateTime) (m : Nat) : DateTime :=
  let total : Nat := dt.hour * 60 + dt.minute + m
  { day := dt.day + (total / 1440 : Nat)
    hour := total % 1440 / 60
    minute := total % 1440 % 60
    second := dt.second
    micro := dt.micro }

/-- `realign_timestamps` (src/data_preprocessor.py lines 390–420).  The
parsed start time is passed as `Option DateTime`: `none` models a start
string `pd.to_datetime` cannot parse, which raises before any mutation.
The generated list is `[start + interval·i minutes for i in range(num_rows)]`
and is assigned to the date column wholesale, ignoring its prior values. -/
def realignTimestamps (st : State) (startOpt : Option DateTime)
    (interval : Nat) : State × Bool :=
  match st.processed, st.dateColumn with
  | some tbl, some dc =>
    match startOpt with
    | none => (st, false)
    | some t0 =>
      let ts := (List.range tbl.rows.length).map
        (fun j => addMinutes t0 (interval * j))
      match tbl.colIdx dc with
      | some i =>
        let newRows := writeTimes tbl.rows i ts
        ({ st with processed := some { tbl with rows := newRows } }, true)
      | none =>
        let newRows := (tbl.rows.zip ts).map
          (fun p => p.1 ++ [Cell.time p.2])
        let tbl' : Table := { colNames := tbl.colNames ++ [dc], rows := newRows }
        ({ st with processed := some tbl' }, true)
  | _, _ => (st, false)

/-!
## Normalizer

`normalize_data` divides by `std = sqrt(var)`, so its written values are
irrational in general; this part of the embedding therefore uses real-valued
cells.  Python floats are modelled as exact reals, with `NaN` kept explicit:
a cell is `Option ℝ` (`none` = `NaN`), and a column statistic that pandas
returns as `NaN` (the `ddof = 1` standard deviation of fewer than two
values) is `Option ℝ` as well, so that the source's `if std != 0:` guard —
which *passes* on `NaN` — can be translated faithfully. -/

/-- A float cell: `none` is `NaN`. -/
abbrev RCell := Option ℝ

/-- The non-null values of a column. -/
def denull (xs : List RCell) : List ℝ :=
  xs.filterMap id

/-- `Series.mean()` over already-denulled values (meaningful when nonempty). -/
noncomputable def rmean (xs : List ℝ) : ℝ :=
  xs.sum / (xs.length : ℝ)

/-- Sample variance, `ddof = 1` (meaningful when `xs.length ≥ 2`). -/
noncomputable def rvar (xs : List ℝ) : ℝ :=
  ((xs.map (fun x => (x - rmean xs) ^ 2)).sum) / ((xs.length : ℝ) - 1)

/-- `Series.std()`: `none` is the `NaN` pandas returns for fewer than two
non-null values, otherwise `sqrt` of the sample variance. -/
noncomputable def rstd (xs : List ℝ) : Option ℝ :=
  if xs.length ≤ 1 then none else some (Real.sqrt (rvar xs))

/-- The z-score branch of the `normalize_data` column loop:
`std = data.std(); if std != 0: df[col] = (data − mean)/std; count += 1`.
`NaN != 0` is `True` in Python, so a `NaN` std passes the guard, every cell
of the column becomes `NaN` (arithmetic with `NaN`), and the column is
counted; a zero std fails the guard and leaves the column untouched;
otherwise the affine map is applied to the non-null cells (`NaN` stays
`NaN`).  Returns the new column and whether it was counted. -/
noncomputable def zscoreColumn (xs : List RCell) : List RCell × Bool :=
  match rstd (denull xs) with
  | none => (xs.map (fun _ => none), true)
  | some s =>
    if s = 0 then (xs, false)
    else (xs.map (Option.map (fun x => (x - rmean (denull xs)) / s)), true)

/-- The min-max branch: skip when `max = min`; on an all-null column both are
`NaN`, `NaN != NaN` is `True`, so the (empty) column is written with `NaN`
and counted. -/
noncomputable def minmaxColumn (xs : List RCell) : List RCell × Bool :=
  match denull xs with
  | [] => (xs.map (fun _ => none), true)
  | v :: vs =>
    let mn := vs.foldl min v
    let mx := vs.foldl max v
    if mx = mn then (xs, false)
    else (xs.map (Option.map (fun x => (x - mn) / (mx - mn))), true)

/-- Column dispatch on the method string: any string other than `'zscore'`
and `'minmax'` matches no branch and changes nothing. -/
noncomputable def normColumn (method : String) (xs : List RCell) :
    List RCell × Bool :=
  if method = "zscore" then zscoreColumn xs
  else if method = "minmax" then minmaxColumn xs
  else (xs, false)

/-- A float-valued frame for the normalizer: named columns of float cells. -/
abbrev RTable := List (String × List RCell)

/-- `df[c]`: the first column named `c`. -/
def lookupCol (tbl : RTable) (c : String) : Option (List RCell) :=
  (tbl.find? (fun p => p.1 = c)).map Prod.snd

/-- `df[c] = xs`: replace the (first) column named `c`. -/
def updateCol (tbl : RTable) (c : String) (xs : List RCell) : RTable :=
  match tbl with
  | [] => []
  | p :: rest =>
    if p.1 = c then (c, xs) :: rest else p :: updateCol rest c xs

/-- The state fields `normalize_data` touches. -/
structure RState where
  processedR : Option RTable
  numericColumnsR : List String

/-- The `for col in target_columns` loop of `normalize_data`: skip columns
not in `numeric_columns`; a missing column raises `KeyError` and aborts with
the mutations so far kept.  Returns table, normalized-column count, success. -/
noncomputable def normalizeGo (method : String) (numCols : List String) :
    RTable → List String → RTable × Nat × Bool
  | tbl, [] => (tbl, 0, true)
  | tbl, c :: cs =>
    if c ∈ numCols then
      match lookupCol tbl c with
      | none => (tbl, 0, false)
      | some xs =>
        let r := normColumn method xs
        let rest := normalizeGo method numCols (updateCol tbl c r.1) cs
        (rest.1, (if r.2 then 1 else 0) + rest.2.1, rest.2.2)
    else normalizeGo method numCols tbl cs

/-- `normalize_data` (src/data_preprocessor.py lines 279–329): fails only
when `processed` is missing (or on a `KeyError` mid-loop); `columns = none`
(and the falsy empty list) defaults to all detected numeric columns.
Returns new state, normalized-column count, success flag. -/
noncomputable def normalizeData (st : RState) (method : String)
    (columns : Option (List String)) : RState × Nat × Bool :=
  match st.processedR with
  | none => (st, 0, false)
  | some tbl =>
    let r := normalizeGo method st.numericColumnsR tbl
      (targetCols st.numericColumnsR columns)
    ({ st with processedR := some r.1 }, r.2.1, r.2.2)

/-!
## Concrete instances

Small datasets used to instantiate the theorems below. -/

/-- Number of rows of the current `processed` snapshot (0 when unloaded). -/
def procRows (st : State) : Nat :=
  match st.processed with
  | none => 0
  | some t => t.rows.length

/-- A loaded two-row dataset with a parsed date column `d` and a numeric
column `x`. -/
def tblD : Table :=
  { colNames := ["d", "x"],
    rows := [[Cell.time ⟨0, 0, 0, 0, 0⟩, Cell.num 1],
             [Cell.time ⟨0, 0, 1, 0, 0⟩, Cell.num 100]] }

/-- `tblD` filtered down to its second row (a previously filtered state). -/
def tblD1 : Table :=
  { colNames := ["d", "x"],
    rows := [[Cell.time ⟨0, 0, 1, 0, 0⟩, Cell.num 100]] }

/-- An ordering predicate on the datetime column: `d >= 0`. -/
def fD : Filter := ⟨"d", FOp.ge, some 0, none, none⟩

/-- A numeric predicate: `x >= 10`. -/
def fX : Filter := ⟨"x", FOp.ge, some 10, none, none⟩

/-- The state right after loading `tblD`. -/
def stD : State := ⟨some tblD, some tblD, ["d", "x"], ["x"], some "d"⟩

/-- `tblD` loaded, then filtered down to one row by an earlier filter run. -/
def stD2 : State := ⟨some tblD, some tblD1, ["d", "x"], ["x"], some "d"⟩

/-- A loaded dataset with zero rows. -/
def stZ : State := ⟨some ⟨["x"], []⟩, some ⟨["x"], []⟩, ["x"], ["x"], none⟩

/-- Two numeric columns; `A` has one extreme value (row 4), and dropping that
row shrinks the quartile spread of `B` enough to flag `B = 13` (row 5),
which `B`'s quartiles on the full table do not flag. -/
def tblC2 : Table :=
  { colNames := ["A", "B"],
    rows := [[Cell.num 0, Cell.num 10],
             [Cell.num 0, Cell.num 10],
             [Cell.num 0, Cell.num 10],
             [Cell.num 0, Cell.num 10],
             [Cell.num 1000, Cell.num 16],
             [Cell.num 0, Cell.num 13]] }

/-- The state right after loading `tblC2`. -/
def stC2 : State := ⟨some tblC2, some tblC2, ["A", "B"], ["A", "B"], none⟩

/-- The numeric column `B` of `tblC2` as loaded. -/
def colB : List Cell :=
  [Cell.num 10, Cell.num 10, Cell.num 10, Cell.num 10, Cell.num 16, Cell.num 13]

/-- The column `B` after the `A` outlier row of `tblC2` is dropped. -/
def colB4 : List Cell :=
  [Cell.num 10, Cell.num 10, Cell.num 10, Cell.num 10, Cell.num 13]

/-- `tblC2` after the IQR drop pass over column `A` (row 4 removed). -/
def tblC2A : Table :=
  { colNames := ["A", "B"],
    rows := [[Cell.num 0, Cell.num 10],
             [Cell.num 0, Cell.num 10],
             [Cell.num 0, Cell.num 10],
             [Cell.num 0, Cell.num 10],
             [Cell.num 0, Cell.num 13]] }

/-- `tblC2` after the IQR drop passes over `A` and then `B` (rows 4 and 5
removed): on the `A`-filtered data, `B`'s quartiles collapse to 10 and the
value 13 is flagged. -/
def tblC2AB : Table :=
  { colNames := ["A", "B"],
    rows := [[Cell.num 0, Cell.num 10],
             [Cell.num 0, Cell.num 10],
             [Cell.num 0, Cell.num 10],
             [Cell.num 0, Cell.num 10]] }

/-- A loaded two-row numeric dataset. -/
def tblN : Table := { colNames := ["x"], rows := [[Cell.num 1], [Cell.num 100]] }

/-- The state right after loading `tblN`. -/
def stN : State := ⟨some tblN, some tblN, ["x"], ["x"], none⟩

/-- A loaded dataset whose only column is a parsed date column. -/
def tblS : Table :=
  { colNames := ["t"],
    rows := [[Cell.time ⟨0, 0, 1, 0, 0⟩], [Cell.time ⟨0, 23, 59, 30, 0⟩]] }

/-- The state right after loading `tblS`. -/
def stS : State := ⟨some tblS, some tblS, ["t"], [], some "t"⟩

/-- A float frame with one numeric column of two distinct values. -/
noncomputable def tblR1 : RTable := [("a", [some (1 : ℝ), some (3 : ℝ)])]

/-- Normalizer state holding `tblR1`. -/
noncomputable def stR1 : RState := ⟨some tblR1, ["a"]⟩

/-- A float frame whose column `a` has a single non-null value. -/
noncomputable def tblR2 : RTable := [("a", [some (5 : ℝ), none])]

/-- Normalizer state holding `tblR2`. -/
noncomputable def stR2 : RState := ⟨some tblR2, ["a"]⟩

/-- A float frame whose column `a` is constant (zero standard deviation). -/
noncomputable def tblR3 : RTable := [("a", [some (5 : ℝ), some (5 : ℝ)])]

/-- Normalizer state holding `tblR3`. -/
noncomputable def stR3 : RState := ⟨some tblR3, ["a"]⟩

/-!
## General lemmas -/

theorem mapO_eq_some_filterMap {α : Type} (g : α → Option Bool) :
    ∀ (rows : List α) (mask : List Bool), mapO g rows = some mask →
      (rows.zip mask).filterMap (fun p => if p.2 then some p.1 else none)
        = rows.filter (fun r => decide (g r = some true)) := by
  intro rows
  induction rows with
  | nil =>
    intro mask h
    simp only [mapO, Option.some.injEq] at h
    subst h
    simp
  | cons a l ih =>
    intro mask h
    simp only [mapO] at h
    cases hga : g a with
    | none => rw [hga] at h; simp at h
    | some b =>
      rw [hga] at h
      cases hml : mapO g l with
      | none => rw [hml] at h; simp at h
      | some bs =>
        rw [hml] at h
        simp at h
        subst h
        simp only [List.zip_cons_cons, List.filterMap_cons, List.filter_cons]
        cases b with
        | true => simp [hga, ih bs hml]
        | false => simp [hga, ih bs hml]

theorem mapO_congr {α β : Type} {f g : α → Option β} (h : ∀ a, f a = g a) :
    ∀ l, mapO f l = mapO g l := by
  intro l
  induction l with
  | nil => rfl
  | cons a l ih => simp [mapO, h a, ih]

theorem mapO_some_of_true {α : Type} (g : α → Option Bool)
    (h : ∀ a, g a = some true) :
    ∀ l : List α, mapO g l = some (l.map (fun _ => true)) := by
  intro l
  induction l with
  | nil => rfl
  | cons a l ih => simp [mapO, h a, ih]

theorem foldl_filter_of_id {α β : Type} (p : α → Bool) (step : β → α → β)
    (hstep : ∀ b a, p a = false → step b a = b) :
    ∀ (l : List α) (b : β), l.foldl step b = (l.filter p).foldl step b := by
  intro l
  induction l with
  | nil => intro b; rfl
  | cons a l ih =>
    intro b
    simp only [List.foldl_cons, List.filter_cons]
    cases hpa : p a with
    | true => simp only [List.foldl_cons]; exact ih _
    | false => rw [hstep b a hpa]; simpa using ih b

theorem rowMask_nil (cols : List String) (tbl : Table) (row : List Cell) :
    rowMask cols tbl [] row = some true := rfl

/-- A filter on a column outside `cols` contributes nothing to the row mask:
the `continue` branch of the filter loop. -/
theorem rowMask_skip (cols : List String) (tbl : Table) (row : List Cell)
    (fs : List Filter) :
    rowMask cols tbl fs row
      = rowMask cols tbl (fs.filter (fun f => decide (f.column ∈ cols))) row := by
  unfold rowMask
  refine foldl_filter_of_id _ _ (fun b f hf => ?_) fs (some true)
  simp only [decide_eq_false_iff_not] at hf
  simp [hf]

/-!
## Structural lemmas about `applyFilters` -/

theorem applyFilters_no_orig (st : State) (fs : List Filter)
    (h : st.original = none) : applyFilters st fs = (st, false) := by
  unfold applyFilters
  rw [h]

theorem applyFilters_mask_none (st : State) (tbl : Table) (fs : List Filter)
    (h1 : st.original = some tbl)
    (h2 : mapO (rowMask st.columns tbl fs) tbl.rows = none) :
    applyFilters st fs = ({ st with processed := some tbl }, false) := by
  unfold applyFilters
  rw [h1]
  simp only [h2]

theorem applyFilters_mask_some (st : State) (tbl : Table) (fs : List Filter)
    (mask : List Bool) (h1 : st.original = some tbl)
    (h2 : mapO (rowMask st.columns tbl fs) tbl.rows = some mask) :
    applyFilters st fs =
      ({ st with processed := some { tbl with
          rows := (tbl.rows.zip mask).filterMap
            (fun p => if p.2 then some p.1 else none) } },
       decide (tbl.rows.length ≠ 0)) := by
  unfold applyFilters
  rw [h1]
  simp only [h2]
  by_cases h : tbl.rows.length = 0 <;> simp [h]

/-!
## Claim C1 -/

/-- C1, counterexample to the claim as stated: on a loaded two-row dataset
with a parsed datetime column `d`, the predicate list `[x >= 10, d >= 0]`
does not leave `processed` as the subset of `original` rows on which every
predicate holds (the numeric predicate alone excludes the first row, so that
subset has at most one row under any reading): the ordering comparison on
the datetime column raises `TypeError`, the call fails, and `processed` is
left as the full two-row copy of `original`. -/
theorem apply_filters_subset_cex :
    (applyFilters stD [fX, fD]).2 = false ∧
    (applyFilters stD [fX, fD]).1.processed = some tblD ∧
    (applyFilters stD [fX, fD]).1.processed
      ≠ some { tblD with rows := tblD.rows.filter (fun r =>
          decide (rowMask stD.columns tblD [fX, fD] r = some true)) } := by
  decide

/-- C1 (amended): for every loaded dataset, as long as no effective
predicate applies an ordering/range operator to a datetime column (no
`TypeError`), `apply_filters` replaces `processed` with exactly the subset
of `original` rows on which every effective predicate holds, in the original
row order (the positional row model makes `reset_index(drop=True)`
implicit); a predicate whose column is not among the table's columns is
skipped, the whole call being unchanged by its removal; with an empty
predicate list `processed` becomes a full copy of `original`; and when a
predicate does order a datetime column the call fails, leaving `processed`
a full unfiltered copy of `original`. -/
theorem apply_filters_subset_spec (st : State) (tbl : Table) (fs : List Filter)
    (horig : st.original = some tbl) (hcols : st.columns = tbl.colNames) :
    ((mapO (rowMask tbl.colNames tbl fs) tbl.rows).isSome →
      (applyFilters st fs).1.processed
        = some { tbl with rows := tbl.rows.filter (fun r =>
            decide (rowMask tbl.colNames tbl fs r = some true)) })
    ∧ (mapO (rowMask tbl.colNames tbl fs) tbl.rows = none →
      (applyFilters st fs).1.processed = some tbl ∧ (applyFilters st fs).2 = false)
    ∧ ((applyFilters st []).1.processed = some tbl)
    ∧ (applyFilters st fs
        = applyFilters st (fs.filter (fun f => decide (f.column ∈ tbl.colNames)))) := by
  refine ⟨?_, ?_, ?_, ?_⟩
  · intro hs
    obtain ⟨mask, hm⟩ := Option.isSome_iff_exists.mp hs
    have hm' : mapO (rowMask st.columns tbl fs) tbl.rows = some mask := by
      rw [hcols]; exact hm
    rw [applyFilters_mask_some st tbl fs mask horig hm']
    simp only [Option.some.injEq]
    rw [mapO_eq_some_filterMap _ _ _ hm]
  · intro hn
    have hn' : mapO (rowMask st.columns tbl fs) tbl.rows = none := by
      rw [hcols]; exact hn
    rw [applyFilters_mask_none st tbl fs horig hn']
    simp
  · have h := mapO_some_of_true (rowMask st.columns tbl [])
      (fun a => rowMask_nil _ _ _) tbl.rows
    rw [applyFilters_mask_some st tbl [] _ horig h]
    simp only [Option.some.injEq]
    rw [mapO_eq_some_filterMap _ _ _ h]
    simp [rowMask_nil]
  · rw [← hcols]
    have hmap := mapO_congr (fun r => rowMask_skip st.columns tbl r fs) tbl.rows
    cases hm : mapO (rowMask st.columns tbl fs) tbl.rows with
    | none =>
      rw [applyFilters_mask_none st tbl fs horig hm,
        applyFilters_mask_none st tbl _ horig (by rw [← hmap]; exact hm)]
    | some mask =>
      rw [applyFilters_mask_some st tbl fs mask horig hm,
        applyFilters_mask_some st tbl _ mask horig (by rw [← hmap]; exact hm)]

/-- C1, witness: instantiating the amended theorem on the concrete loaded
dataset `tblD` with the single numeric predicate `x >= 10` keeps exactly the
second row. -/
theorem apply_filters_subset_spec_witness :
    (applyFilters stD [fX]).1.processed = some tblD1 := by
  have h := (apply_filters_subset_spec stD tblD [fX] rfl rfl).1 (by decide)
  rw [h]
  decide

/-!
## Claim C3 -/

/-- C3, counterexample to the claim as stated: a loaded dataset with zero
rows makes `apply_filters` fail even with an empty predicate list (the
success message divides the after-count by the zero before-count); and on a
loaded dataset whose `processed` had been filtered down to one row, a
predicate ordering the datetime column makes the call fail *after* mutating
`processed` back to the full two-row copy. -/
theorem apply_filters_failure_cex :
    ((applyFilters stZ []).2 = false)
    ∧ ((applyFilters stD2 [fD]).2 = false
        ∧ (applyFilters stD2 [fD]).1.processed ≠ stD2.processed) := by
  decide

/-- C3 (amended): `apply_filters` fails with no mutation at all when
`original` is missing; on a loaded dataset it succeeds exactly when the
dataset has at least one row and no effective predicate applies an ordering
or range operator to a datetime column — so it also fails on a loaded
zero-row dataset (after `processed` has already been reassigned) and on a
datetime-ordering predicate (after `processed` has been reset to a full
copy of `original`). -/
theorem apply_filters_failure_spec (st : State) (tbl : Table)
    (fs : List Filter) (horig : st.original = some tbl) :
    ((applyFilters st fs).2 = true ↔
      tbl.rows ≠ [] ∧ (mapO (rowMask st.columns tbl fs) tbl.rows).isSome)
    ∧ (∀ st' : State, st'.original = none → applyFilters st' fs = (st', false)) := by
  constructor
  · cases hm : mapO (rowMask st.columns tbl fs) tbl.rows with
    | none =>
      rw [applyFilters_mask_none st tbl fs horig hm]
      simp
    | some mask =>
      rw [applyFilters_mask_some st tbl fs mask horig hm]
      simp [List.length_eq_zero]
  · intro st' h
    exact applyFilters_no_orig st' fs h

/-- C3, witness: on the loaded two-row dataset `tblD` with the numeric
predicate `x >= 10` the call succeeds. -/
theorem apply_filters_failure_spec_witness :
    (applyFilters stD [fX]).2 = true :=
  ((apply_filters_failure_spec stD tblD [fX] rfl).1).mpr (by decide)

/-!
## Structural lemmas used by the idempotence and row-count claims -/

theorem applyFilters_fields (st : State) (fs : List Filter) :
    (applyFilters st fs).1.original = st.original
      ∧ (applyFilters st fs).1.columns = st.columns := by
  cases horig : st.original with
  | none => rw [applyFilters_no_orig st fs horig]; exact ⟨horig, rfl⟩
  | some tbl =>
    cases hm : mapO (rowMask st.columns tbl fs) tbl.rows with
    | none => rw [applyFilters_mask_none st tbl fs horig hm]; exact ⟨horig, rfl⟩
    | some mask =>
      rw [applyFilters_mask_some st tbl fs mask horig hm]; exact ⟨horig, rfl⟩

theorem applyFilters_congr (st st' : State) (tbl : Table) (fs : List Filter)
    (horig : st.original = some tbl) (horig' : st'.original = some tbl)
    (hcols : st.columns = st'.columns) :
    (applyFilters st fs).1.processed = (applyFilters st' fs).1.processed
      ∧ (applyFilters st fs).2 = (applyFilters st' fs).2 := by
  cases hm : mapO (rowMask st.columns tbl fs) tbl.rows with
  | none =>
    rw [applyFilters_mask_none st tbl fs horig hm,
      applyFilters_mask_none st' tbl fs horig' (by rw [← hcols]; exact hm)]
    exact ⟨rfl, rfl⟩
  | some mask =>
    rw [applyFilters_mask_some st tbl fs mask horig hm,
      applyFilters_mask_some st' tbl fs mask horig' (by rw [← hcols]; exact hm)]
    exact ⟨rfl, rfl⟩

/-!
## Claim C8 -/

/-- C8 (confirmed): on a loaded dataset, running `apply_filters` twice with
the same predicate list leaves the same `processed` snapshot (and the same
success flag) as running it once: each invocation re-derives `processed`
from the unchanged `original` snapshot, never from the previous filtered
result. -/
theorem apply_filters_idempotent (st : State) (tbl : Table) (fs : List Filter)
    (horig : st.original = some tbl) :
    (applyFilters (applyFilters st fs).1 fs).1.processed
        = (applyFilters st fs).1.processed
      ∧ (applyFilters (applyFilters st fs).1 fs).2 = (applyFilters st fs).2 := by
  have hf := applyFilters_fields st fs
  exact applyFilters_congr (applyFilters st fs).1 st tbl fs
    (hf.1.trans horig) horig hf.2

/-- C8, witness: concrete idempotence on the loaded dataset `tblN` with the
predicate `x >= 10`. -/
theorem apply_filters_idempotent_witness :
    (applyFilters (applyFilters stN [fX]).1 [fX]).1.processed
      = (applyFilters stN [fX]).1.processed :=
  (apply_filters_idempotent stN tblN [fX] rfl).1

/-!
## Row-count lemmas for `remove_outliers` -/

theorem outlierStep_length (method action : String) (tbl : Table) (c : String)
    (tbl' : Table) (k : Nat)
    (h : outlierStep method action tbl c = some (tbl', k)) :
    tbl'.rows.length ≤ tbl.rows.length := by
  unfold outlierStep at h
  cases hidx : tbl.colIdx c with
  | none => rw [hidx] at h; simp at h
  | some i =>
    rw [hidx] at h
    simp only at h
    split at h
    · simp only [Option.some.injEq, Prod.mk.injEq] at h
      obtain ⟨ht, _⟩ := h
      subst ht
      simp only [List.length_map, List.length_zip, colOutlierMask,
        List.length_map]
      exact Nat.min_le_left _ _
    · split at h
      · simp only [Option.some.injEq, Prod.mk.injEq] at h
        obtain ⟨ht, _⟩ := h
        subst ht
        calc (List.filterMap _ _).length
            ≤ (tbl.rows.zip (colOutlierMask method
                (tbl.rows.map (fun r => r.getD i Cell.null)))).length :=
              List.length_filterMap_le _ _
          _ ≤ tbl.rows.length := by
              simp only [List.length_zip]
              exact Nat.min_le_left _ _
      · simp only [Option.some.injEq, Prod.mk.injEq] at h
        obtain ⟨ht, _⟩ := h
        subst ht
        exact Nat.le_refl _

theorem removeOutliersGo_length (method action : String)
    (numCols : List String) :
    ∀ (cs : List String) (tbl : Table),
      (removeOutliersGo method action numCols tbl cs).1.rows.length
        ≤ tbl.rows.length := by
  intro cs
  induction cs with
  | nil => intro tbl; exact Nat.le_refl _
  | cons c cs ih =>
    intro tbl
    unfold removeOutliersGo
    by_cases hc : c ∈ numCols
    · rw [if_pos hc]
      cases hs : outlierStep method action tbl c with
      | none => exact Nat.le_refl _
      | some p =>
        simp only
        exact (ih p.1).trans (outlierStep_length method action tbl c p.1 p.2 hs)
    · rw [if_neg hc]
      exact ih tbl

theorem removeOutliers_unfold (st : State) (tbl : Table) (method action : String)
    (cols : Option (List String)) (h : st.processed = some tbl) :
    removeOutliers st method cols action
      = ({ st with processed := some (removeOutliersGo method action
            st.numericColumns tbl (targetCols st.numericColumns cols)).1 },
         (removeOutliersGo method action st.numericColumns tbl
            (targetCols st.numericColumns cols)).2.1,
         (removeOutliersGo method action st.numericColumns tbl
            (targetCols st.numericColumns cols)).2.2) := by
  unfold removeOutliers
  rw [h]

/-!
## Claim C9 -/

/-- C9, counterexample to the claim as stated: re-running the filter engine
does not in general restore `processed` to `original`'s row count.  On the
loaded two-row dataset `tblN`, re-running `apply_filters` with the
predicate `x >= 10` succeeds and leaves one row, not `tblN`'s two. -/
theorem row_count_cex :
    (applyFilters stN [fX]).2 = true
      ∧ procRows (applyFilters stN [fX]).1 ≠ tblN.rows.length := by
  decide

/-- C9 (amended): within one pipeline pass the `processed` row count is
monotonically non-increasing across the filter and drop-outlier stages —
`apply_filters` leaves at most `original`'s row count and `remove_outliers`
with the drop action never increases the count; and whenever the filter
engine re-runs, the count is re-derived from `original` alone,
independently of the previous `processed` (with an empty predicate list it
is restored to exactly `original`'s row count). -/
theorem row_count_monotone (st : State) (tbl tblP : Table) (fs : List Filter)
    (method : String) (cols : Option (List String)) (p : Option Table) :
    (st.original = some tbl →
      procRows (applyFilters st fs).1 ≤ tbl.rows.length)
    ∧ (st.processed = some tblP →
      procRows (removeOutliers st method cols "drop").1 ≤ tblP.rows.length)
    ∧ (st.original = some tbl →
      (applyFilters { st with processed := p } fs).1.processed
          = (applyFilters st fs).1.processed
        ∧ (applyFilters { st with processed := p } fs).2 = (applyFilters st fs).2)
    ∧ (st.original = some tbl →
      procRows (applyFilters st []).1 = tbl.rows.length) := by
  refine ⟨?_, ?_, ?_, ?_⟩
  · intro horig
    cases hm : mapO (rowMask st.columns tbl fs) tbl.rows with
    | none =>
      rw [applyFilters_mask_none st tbl fs horig hm]
      exact Nat.le_refl _
    | some mask =>
      rw [applyFilters_mask_some st tbl fs mask horig hm]
      simp only [procRows]
      calc (List.filterMap _ _).length
          ≤ (tbl.rows.zip mask).length := List.length_filterMap_le _ _
        _ ≤ tbl.rows.length := by
            simp only [List.length_zip]
            exact Nat.min_le_left _ _
  · intro hproc
    rw [removeOutliers_unfold st tblP method "drop" cols hproc]
    simp only [procRows]
    exact removeOutliersGo_length method "drop" st.numericColumns _ tblP
  · intro horig
    exact applyFilters_congr { st with processed := p } st tbl fs horig horig rfl
  · intro horig
    have h := mapO_some_of_true (rowMask st.columns tbl [])
      (fun a => rowMask_nil _ _ _) tbl.rows
    rw [applyFilters_mask_some st tbl [] _ horig h]
    simp only [procRows]
    rw [mapO_eq_some_filterMap _ _ _ h]
    simp [rowMask_nil]

/-- C9, witness: instantiating the amended row-count theorem on the loaded
dataset `tblN`: filtering with `x >= 10` and then dropping outliers never
exceeds the loaded row count, and an empty filter list restores it. -/
theorem row_count_monotone_witness :
    procRows (applyFilters stN [fX]).1 ≤ tblN.rows.length
      ∧ procRows (removeOutliers stN "iqr" none "drop").1 ≤ tblN.rows.length
      ∧ procRows (applyFilters stN []).1 = tblN.rows.length :=
  ⟨(row_count_monotone stN tblN tblN [fX] "iqr" none none).1 rfl,
   (row_count_monotone stN tblN tblN [fX] "iqr" none none).2.1 rfl,
   (row_count_monotone stN tblN tblN [] "iqr" none none).2.2.2 rfl⟩

/-!
## Evaluation helpers for quantile-based outlier bounds -/

theorem quantile_eval (xs s : List ℚ) (p : ℚ) (k : Int) (a b v : ℚ)
    (hs : sortQ xs = s)
    (hk : Int.floor (p * ((s.length : ℚ) - 1)) = k)
    (ha : s.getD k.toNat 0 = a) (hb : s.getD (k.toNat + 1) 0 = b)
    (hv : a + (p * ((s.length : ℚ) - 1) - (k : ℚ)) * (b - a) = v) :
    quantile xs p = v := by
  simp only [quantile]
  rw [hs, hk, ha, hb]
  exact hv

theorem iqrFlag_eval (nn : List ℚ) (x q1 q3 : ℚ)
    (h1 : quantile nn (1 / 4) = q1) (h3 : quantile nn (3 / 4) = q3)
    (hlen : nn.length ≠ 0) :
    iqrFlag nn (Cell.num x)
      = decide (x < q1 - 3 / 2 * (q3 - q1) ∨ x > q3 + 3 / 2 * (q3 - q1)) := by
  simp only [iqrFlag, if_neg hlen]
  rw [h1, h3]

/-!
## Unfolding lemma for the outlier column loop -/

theorem removeOutliersGo_cons_mem (method action : String)
    (numCols : List String) (tbl tbl' : Table) (k : Nat) (c : String)
    (cs : List String) (hc : c ∈ numCols)
    (hstep : outlierStep method action tbl c = some (tbl', k)) :
    removeOutliersGo method action numCols tbl (c :: cs)
      = ((removeOutliersGo method action numCols tbl' cs).1,
         k + (removeOutliersGo method action numCols tbl' cs).2.1,
         (removeOutliersGo method action numCols tbl' cs).2.2) := by
  conv_lhs => rw [removeOutliersGo]
  rw [if_pos hc, hstep]

/-!
## Claim C2 -/

theorem outlierStep_tblC2_A :
    outlierStep "iqr" "drop" tblC2 "A" = some (tblC2A, 1) := by
  have hq1A : quantile [(0:ℚ), 0, 0, 0, 1000, 0] (1 / 4) = 0 :=
    quantile_eval _ [0, 0, 0, 0, 0, 1000] _ 1 0 0 _ (by decide)
      (by rw [Int.floor_eq_iff]; norm_num) (by decide) (by decide) (by norm_num)
  have hq3A : quantile [(0:ℚ), 0, 0, 0, 1000, 0] (3 / 4) = 0 :=
    quantile_eval _ [0, 0, 0, 0, 0, 1000] _ 3 0 0 _ (by decide)
      (by rw [Int.floor_eq_iff]; norm_num) (by decide) (by decide) (by norm_num)
  have h0 : iqrFlag [(0:ℚ), 0, 0, 0, 1000, 0] (Cell.num 0) = false := by
    rw [iqrFlag_eval _ _ 0 0 hq1A hq3A (by decide)]; norm_num
  have h1000 : iqrFlag [(0:ℚ), 0, 0, 0, 1000, 0] (Cell.num 1000) = true := by
    rw [iqrFlag_eval _ _ 0 0 hq1A hq3A (by decide)]; norm_num
  have hidx : tblC2.colIdx "A" = some 0 := by decide
  have hvals : tblC2.rows.map (fun r => r.getD 0 Cell.null)
      = [Cell.num 0, Cell.num 0, Cell.num 0, Cell.num 0,
         Cell.num 1000, Cell.num 0] := by decide
  have hnn : nonNullNums [Cell.num 0, Cell.num 0, Cell.num 0, Cell.num 0,
      Cell.num 1000, Cell.num 0] = [(0:ℚ), 0, 0, 0, 1000, 0] := by decide
  simp only [outlierStep, hidx, hvals, colOutlierMask, hnn]
  simp [h0, h1000]
  decide

theorem outlierStep_tblC2A_B :
    outlierStep "iqr" "drop" tblC2A "B" = some (tblC2AB, 1) := by
  have hq1B : quantile [(10:ℚ), 10, 10, 10, 13] (1 / 4) = 10 :=
    quantile_eval _ [10, 10, 10, 10, 13] _ 1 10 10 _ (by decide)
      (by rw [Int.floor_eq_iff]; norm_num) (by decide) (by decide) (by norm_num)
  have hq3B : quantile [(10:ℚ), 10, 10, 10, 13] (3 / 4) = 10 :=
    quantile_eval _ [10, 10, 10, 10, 13] _ 3 10 13 _ (by decide)
      (by rw [Int.floor_eq_iff]; norm_num) (by decide) (by decide) (by norm_num)
  have h10 : iqrFlag [(10:ℚ), 10, 10, 10, 13] (Cell.num 10) = false := by
    rw [iqrFlag_eval _ _ 10 10 hq1B hq3B (by decide)]; norm_num
  have h13 : iqrFlag [(10:ℚ), 10, 10, 10, 13] (Cell.num 13) = true := by
    rw [iqrFlag_eval _ _ 10 10 hq1B hq3B (by decide)]; norm_num
  have hidx : tblC2A.colIdx "B" = some 1 := by decide
  have hvals : tblC2A.rows.map (fun r => r.getD 1 Cell.null)
      = [Cell.num 10, Cell.num 10, Cell.num 10, Cell.num 10,
         Cell.num 13] := by decide
  have hnn : nonNullNums [Cell.num 10, Cell.num 10, Cell.num 10,
      Cell.num 10, Cell.num 13] = [(10:ℚ), 10, 10, 10, 13] := by decide
  simp only [outlierStep, hidx, hvals, colOutlierMask, hnn]
  simp [h10, h13]
  decide

/-- C2 (confirmed): under the drop action, `remove_outliers` processes the
target columns sequentially — running it on targets `A :: rest` leaves the
same `processed` as first dropping `A`'s outlier rows and then running the
remaining targets on the shrunken table, whose per-column bounds are by
definition computed from the table as it then stands.  The concrete
conjuncts exhibit the compounding: on `tblC2`, dropping `A`'s outlier row
and then processing `B` also removes the row with `B = 13` (the quartiles
of the surviving `B` values collapse to 10), even though `B`'s quartile
bounds on the full column do not flag 13. -/
theorem remove_outliers_drop_sequential (st : State) (tbl : Table)
    (method : String) (A : String) (rest : List String)
    (hproc : st.processed = some tbl) (hA : A ∈ st.numericColumns) :
    (∀ tbl' k, outlierStep method "drop" tbl A = some (tbl', k) →
      (removeOutliers st method (some (A :: rest)) "drop").1.processed
        = some (removeOutliersGo method "drop" st.numericColumns tbl' rest).1)
    ∧ (removeOutliers stC2 "iqr" (some ["A", "B"]) "drop").1.processed
        = some tblC2AB
    ∧ iqrFlag (nonNullNums colB) (Cell.num 13) = false := by
  refine ⟨?_, ?_, ?_⟩
  · intro tbl' k hstep
    rw [removeOutliers_unfold st tbl method "drop" (some (A :: rest)) hproc]
    simp only [targetCols, if_neg (List.cons_ne_nil A rest)]
    rw [removeOutliersGo_cons_mem method "drop" st.numericColumns tbl tbl' k
      A rest hA hstep]
  · rw [removeOutliers_unfold stC2 tblC2 "iqr" "drop" (some ["A", "B"]) rfl]
    simp only [targetCols]
    rw [if_neg (List.cons_ne_nil "A" ["B"])]
    rw [removeOutliersGo_cons_mem "iqr" "drop" stC2.numericColumns tblC2
      tblC2A 1 "A" ["B"] (by decide) outlierStep_tblC2_A]
    rw [removeOutliersGo_cons_mem "iqr" "drop" stC2.numericColumns tblC2A
      tblC2AB 1 "B" [] (by decide) outlierStep_tblC2A_B]
    rfl
  · have hq1F : quantile [(10:ℚ), 10, 10, 10, 16, 13] (1 / 4) = 10 :=
      quantile_eval _ [10, 10, 10, 10, 13, 16] _ 1 10 10 _ (by decide)
        (by rw [Int.floor_eq_iff]; norm_num) (by decide) (by decide) (by norm_num)
    have hq3F : quantile [(10:ℚ), 10, 10, 10, 16, 13] (3 / 4) = 49 / 4 :=
      quantile_eval _ [10, 10, 10, 10, 13, 16] _ 3 10 13 _ (by decide)
        (by rw [Int.floor_eq_iff]; norm_num) (by decide) (by decide) (by norm_num)
    have hnn : nonNullNums colB = [(10:ℚ), 10, 10, 10, 16, 13] := by decide
    rw [hnn, iqrFlag_eval _ _ 10 (49 / 4) hq1F hq3F (by decide)]
    norm_num

/-- C2, witness: the sequential part instantiated on the loaded dataset
`tblC2` with target columns `A` then `B` and the concrete `A` drop step. -/
theorem remove_outliers_drop_sequential_witness :
    (removeOutliers stC2 "iqr" (some ["A", "B"]) "drop").1.processed
      = some (removeOutliersGo "iqr" "drop" stC2.numericColumns tblC2A ["B"]).1 :=
  (remove_outliers_drop_sequential stC2 tblC2 "iqr" "A" ["B"] rfl
    (by decide)).1 tblC2A 1 outlierStep_tblC2_A

/-!
## Claim C4 -/

theorem zipMask_filterMap {α : Type} (f : α → Bool) (rows : List α) :
    (rows.zip (rows.map f)).filterMap (fun p => if p.2 then none else some p.1)
      = rows.filter (fun r => !(f r)) := by
  induction rows with
  | nil => rfl
  | cons a l ih =>
    simp only [List.map_cons, List.zip_cons_cons, List.filterMap_cons,
      List.filter_cons]
    cases hfa : f a <;> simp [hfa, ih]

theorem zipMask_map {α : Type} (f : α → Bool) (g : α → α) (rows : List α) :
    (rows.zip (rows.map f)).map (fun p => if p.2 then g p.1 else p.1)
      = rows.map (fun r => if f r then g r else r) := by
  induction rows with
  | nil => rfl
  | cons a l ih =>
    simp only [List.map_cons, List.zip_cons_cons, ih]

/-- C4 (confirmed): under the IQR method a cell is flagged as an outlier iff
it is non-null and strictly outside `[Q1 − 1.5·(Q3−Q1), Q3 + 1.5·(Q3−Q1)]`;
a value inside the bounds, including exactly on a bound, is never flagged,
a null cell is never flagged, and under the drop action the rows kept are
exactly those whose target-column cell is not flagged — so a within-bounds
value never causes a row removal (and the `nan` action, which only writes
where the same mask is true, never nulls it). -/
theorem iqr_outlier_iff (nn : List ℚ) (c : Cell) (x : ℚ) (hnn : nn ≠ []) :
    (iqrFlag nn c = true ↔ ∃ y, c = Cell.num y ∧
      (y < quantile nn (1/4) - 3/2 * (quantile nn (3/4) - quantile nn (1/4))
        ∨ y > quantile nn (3/4) + 3/2 * (quantile nn (3/4) - quantile nn (1/4))))
    ∧ (quantile nn (1/4) - 3/2 * (quantile nn (3/4) - quantile nn (1/4)) ≤ x →
        x ≤ quantile nn (3/4) + 3/2 * (quantile nn (3/4) - quantile nn (1/4)) →
        iqrFlag nn (Cell.num x) = false)
    ∧ iqrFlag nn Cell.null = false
    ∧ (∀ (tbl tbl' : Table) (i k : Nat) (col : String),
        tbl.colIdx col = some i →
        outlierStep "iqr" "drop" tbl col = some (tbl', k) →
        tbl'.rows = tbl.rows.filter (fun r =>
          !(iqrFlag (nonNullNums (tbl.rows.map (fun r2 => r2.getD i Cell.null)))
              (r.getD i Cell.null))))
    ∧ (∀ (tbl tbl' : Table) (i k : Nat) (col : String),
        tbl.colIdx col = some i →
        outlierStep "iqr" "nan" tbl col = some (tbl', k) →
        tbl'.rows = tbl.rows.map (fun r =>
          if iqrFlag (nonNullNums (tbl.rows.map (fun r2 => r2.getD i Cell.null)))
              (r.getD i Cell.null)
          then r.set i Cell.null else r))
    ∧ (∀ k : ℚ, sigmaFlag nn k Cell.null = false) := by
  have hlen : ¬ nn.length = 0 := by simpa [List.length_eq_zero] using hnn
  refine ⟨?_, ?_, ?_, ?_, ?_, ?_⟩
  · cases c with
    | null => simp [iqrFlag, if_neg hlen]
    | num y =>
      simp only [iqrFlag, if_neg hlen, decide_eq_true_eq, Cell.num.injEq,
        exists_eq_left']
    | time t => simp [iqrFlag, if_neg hlen]
  · intro h1 h2
    simp only [iqrFlag, if_neg hlen, decide_eq_false_iff_not]
    push_neg
    constructor <;> linarith
  · simp [iqrFlag, if_neg hlen]
  · intro tbl tbl' i k col hidx hstep
    simp only [outlierStep, hidx] at hstep
    rw [if_neg (show ¬ ("drop" : String) = "nan" by decide)] at hstep
    rw [if_pos trivial] at hstep
    rw [Option.some.injEq, Prod.mk.injEq] at hstep
    obtain ⟨ht, _⟩ := hstep
    subst ht
    simp only [colOutlierMask, if_true, List.map_map]
    exact zipMask_filterMap _ tbl.rows
  · intro tbl tbl' i k col hidx hstep
    simp only [outlierStep, hidx] at hstep
    rw [if_pos trivial] at hstep
    rw [Option.some.injEq, Prod.mk.injEq] at hstep
    obtain ⟨ht, _⟩ := hstep
    subst ht
    simp only [colOutlierMask, if_true, List.map_map]
    exact zipMask_map
      (iqrFlag (nonNullNums (tbl.rows.map (fun r2 => r2.getD i Cell.null)))
        ∘ fun r => r.getD i Cell.null)
      (fun r => r.set i Cell.null) tbl.rows
  · intro k
    simp [sigmaFlag]

/-- C4, witness: on the column values `[1, 2, 3, 4]` the IQR bounds are
`[−1/2, 11/2]`; the interior value 2 and a null cell are not flagged. -/
theorem iqr_outlier_iff_witness :
    iqrFlag [(1:ℚ), 2, 3, 4] (Cell.num 2) = false
      ∧ iqrFlag [(1:ℚ), 2, 3, 4] Cell.null = false := by
  have hq1 : quantile [(1:ℚ), 2, 3, 4] (1/4) = 7/4 :=
    quantile_eval _ [1, 2, 3, 4] _ 0 1 2 _ (by decide)
      (by rw [Int.floor_eq_iff]; norm_num) (by decide) (by decide) (by norm_num)
  have hq3 : quantile [(1:ℚ), 2, 3, 4] (3/4) = 13/4 :=
    quantile_eval _ [1, 2, 3, 4] _ 2 3 4 _ (by decide)
      (by rw [Int.floor_eq_iff]; norm_num) (by decide) (by decide) (by norm_num)
  refine ⟨(iqr_outlier_iff [(1:ℚ), 2, 3, 4] (Cell.num 2) 2 (by decide)).2.1 ?_ ?_,
    (iqr_outlier_iff [(1:ℚ), 2, 3, 4] Cell.null 2 (by decide)).2.2.1⟩
  · rw [hq1, hq3]; norm_num
  · rw [hq1, hq3]; norm_num

/-!
## Claim C5 -/

theorem toNat_mul_two_even (r : Int) : ∃ m, (r * 2).toNat = 2 * m := by
  rcases le_or_lt 0 r with h | h
  · obtain ⟨n, rfl⟩ := Int.eq_ofNat_of_zero_le h
    refine ⟨n, ?_⟩
    rw [show ((n : ℤ) * 2) = ((2 * n : ℕ) : ℤ) by push_cast; ring,
      Int.toNat_natCast]
  · exact ⟨0, by rw [Int.toNat_of_nonpos (by omega)]⟩

/-- C5 (confirmed): snapping with a 2-minute interval always produces a
timestamp whose minute is even and whose seconds and microseconds are zero;
`00:01:00` snaps to `00:00:00` (Python `round` ties to even), `00:05:59`
snaps to `00:06:00`, and `23:59:30` snaps to `00:00:00` of the next day
(the snapped minute total 1440 carries into a day increment); and on a state
whose date column parses, `normalize_timestamps` maps exactly this per-row
snap over the column and succeeds. -/
theorem snap_two_minute_grid :
    (∀ dt : DateTime, (snapDT 2 dt).minute % 2 = 0
      ∧ (snapDT 2 dt).second = 0 ∧ (snapDT 2 dt).micro = 0)
    ∧ snapDT 2 ⟨0, 0, 1, 0, 0⟩ = ⟨0, 0, 0, 0, 0⟩
    ∧ snapDT 2 ⟨0, 0, 5, 59, 0⟩ = ⟨0, 0, 6, 0, 0⟩
    ∧ snapDT 2 ⟨0, 23, 59, 30, 0⟩ = ⟨1, 0, 0, 0, 0⟩
    ∧ (∀ (st : State) (tbl : Table) (dc : String) (i : Nat)
        (ts : List DateTime),
        st.processed = some tbl → st.dateColumn = some dc →
        tbl.colIdx dc = some i → readTimes tbl i = some ts →
        (normalizeTimestamps st 2).1.processed
            = some { tbl with rows := writeTimes tbl.rows i (ts.map (snapDT 2)) }
          ∧ (normalizeTimestamps st 2).2 = true) := by
  refine ⟨?_, ?_, ?_, ?_, ?_⟩
  · intro dt
    refine ⟨?_, rfl, rfl⟩
    simp only [snapDT, Nat.cast_ofNat]
    obtain ⟨m, hm⟩ := toNat_mul_two_even (roundHalfEven
      ((((dt.hour : ℚ) * 60 + (dt.minute : ℚ) + (dt.second : ℚ) / 60
        + (dt.micro : ℚ) / 60000000)) / 2))
    rw [hm]
    rw [show (1440 : ℕ) = 2 * 720 from rfl, Nat.mul_mod_mul_left]
    rw [show (60 : ℕ) = 2 * 30 from rfl, Nat.mul_mod_mul_left]
    exact Nat.mul_mod_right 2 _
  · norm_num [snapDT, roundHalfEven]
  · norm_num [snapDT, roundHalfEven]
    decide
  · norm_num [snapDT, roundHalfEven]
    decide
  · intro st tbl dc i ts hproc hdc hidx hts
    simp only [normalizeTimestamps, hproc, hdc, hidx, hts]
    exact ⟨rfl, rfl⟩

/-- C5, witness: on the loaded dataset `tblS` (date column `t` holding
`00:01:00` and `23:59:30`) the snap call succeeds. -/
theorem snap_two_minute_grid_witness :
    (normalizeTimestamps stS 2).2 = true :=
  (snap_two_minute_grid.2.2.2.2 stS tblS "t" 0
    [⟨0, 0, 1, 0, 0⟩, ⟨0, 23, 59, 30, 0⟩] rfl rfl (by decide) (by decide)).2

/-!
## Claim C7 -/

theorem writeTimes_col (i : Nat) :
    ∀ (rows : List (List Cell)) (ts : List DateTime),
      rows.length = ts.length →
      (∀ r ∈ rows, i < r.length) →
      (writeTimes rows i ts).map (fun r => r.getD i Cell.null)
        = ts.map Cell.time := by
  intro rows
  induction rows with
  | nil =>
    intro ts h _
    cases ts with
    | nil => rfl
    | cons t ts => simp at h
  | cons r rows ih =>
    intro ts hlen hwf
    cases ts with
    | nil => simp at hlen
    | cons t ts =>
      have hi : i < r.length := hwf r (List.mem_cons_self r rows)
      simp only [writeTimes, List.zip_cons_cons, List.map_cons,
        List.cons.injEq]
      constructor
      · rw [List.getD_eq_getElem _ _ (by rw [List.length_set]; exact hi)]
        simp [List.getElem_set_self]
      · exact ih ts (by simpa using hlen)
          (fun r2 hr2 => hwf r2 (List.mem_cons_of_mem _ hr2))

/-- C7 (confirmed): with `processed` present, a detected date column at a
valid index, and a parseable start timestamp, `realign_timestamps` succeeds
and overwrites the date column with exactly
`[T0 + 0·I, T0 + 1·I, …, T0 + (N−1)·I]` minutes — one generated timestamp
per current row in row order, regardless of the column's prior values
(which the definition never reads). -/
theorem realign_spec (st : State) (tbl : Table) (dc : String) (i : Nat)
    (t0 : DateTime) (interval : Nat)
    (hproc : st.processed = some tbl) (hdc : st.dateColumn = some dc)
    (hidx : tbl.colIdx dc = some i) (hi : i < tbl.colNames.length)
    (hwf : ∀ r ∈ tbl.rows, r.length = tbl.colNames.length) :
    (realignTimestamps st (some t0) interval).2 = true
    ∧ ((realignTimestamps st (some t0) interval).1.processed.bind
        (fun t => t.col dc))
      = some ((List.range tbl.rows.length).map
          (fun j => Cell.time (addMinutes t0 (interval * j)))) := by
  simp only [realignTimestamps, hproc, hdc, hidx]
  refine ⟨trivial, ?_⟩
  show (Table.col _ dc) = _
  simp only [Table.col]
  have hidx2 : ∀ rs : List (List Cell),
      Table.colIdx ⟨tbl.colNames, rs⟩ dc = some i := fun _ => hidx
  rw [hidx2]
  simp only [Option.map_some']
  rw [writeTimes_col i tbl.rows _
    (by simp) (fun r hr => (hwf r hr) ▸ hi)]
  rw [List.map_map]
  rfl

/-- C7, witness: realigning the two-row dataset `tblS` from midnight with a
2-minute interval succeeds. -/
theorem realign_spec_witness :
    (realignTimestamps stS (some ⟨0, 0, 0, 0, 0⟩) 2).2 = true :=
  (realign_spec stS tblS "t" 0 ⟨0, 0, 0, 0, 0⟩ 2 rfl rfl (by decide)
    (by decide) (by decide)).1

/-!
## Statistics lemmas for the normalizer -/

theorem denull_map (f : ℝ → ℝ) (xs : List RCell) :
    denull (xs.map (Option.map f)) = (denull xs).map f := by
  induction xs with
  | nil => rfl
  | cons a l ih =>
    cases a with
    | none => simpa [denull] using ih
    | some x => simpa [denull] using ih

theorem sum_map_sub_const (xs : List ℝ) (c : ℝ) :
    (xs.map (fun x => x - c)).sum = xs.sum - xs.length * c := by
  induction xs with
  | nil => simp
  | cons a l ih =>
    simp only [List.map_cons, List.sum_cons, ih, List.length_cons]
    push_cast
    ring

theorem sum_map_sub_mean (xs : List ℝ) (hx : xs ≠ []) :
    (xs.map (fun x => x - rmean xs)).sum = 0 := by
  have hn : (xs.length : ℝ) ≠ 0 :=
    Nat.cast_ne_zero.mpr (List.length_pos.mpr hx).ne'
  rw [sum_map_sub_const, rmean]
  field_simp

theorem rmean_zscore (nn : List ℝ) (s : ℝ) (hx : nn ≠ []) :
    rmean (nn.map (fun x => (x - rmean nn) / s)) = 0 := by
  have h1 : (nn.map (fun x => (x - rmean nn) / s)).sum = 0 := by
    simp only [div_eq_mul_inv]
    rw [List.sum_map_mul_right, sum_map_sub_mean nn hx, zero_mul]
  rw [rmean, h1, zero_div]

theorem rvar_nonneg (nn : List ℝ) (hlen : 2 ≤ nn.length) : 0 ≤ rvar nn := by
  unfold rvar
  apply div_nonneg
  · apply List.sum_nonneg
    intro x hx
    obtain ⟨y, _, rfl⟩ := List.mem_map.mp hx
    positivity
  · have h2 : (2 : ℝ) ≤ (nn.length : ℝ) := by exact_mod_cast hlen
    linarith

theorem rvar_zscore (nn : List ℝ) (s : ℝ) (hlen : 2 ≤ nn.length)
    (hv : rvar nn ≠ 0) (hs2 : s ^ 2 = rvar nn) :
    rvar (nn.map (fun x => (x - rmean nn) / s)) = 1 := by
  have hx : nn ≠ [] := by
    intro h
    rw [h] at hlen
    simp at hlen
  have hn1 : ((nn.length : ℝ) - 1) ≠ 0 := by
    have h2 : (2 : ℝ) ≤ (nn.length : ℝ) := by exact_mod_cast hlen
    intro h
    linarith
  have hm0 := rmean_zscore nn s hx
  conv_lhs => rw [rvar]
  rw [hm0]
  have step1 : (nn.map (fun x => (x - rmean nn) / s)).map
        (fun y => (y - 0) ^ 2)
      = nn.map (fun x => (x - rmean nn) ^ 2 * (rvar nn)⁻¹) := by
    rw [List.map_map]
    apply List.map_congr_left
    intro x _
    simp only [Function.comp_apply, sub_zero, div_pow, hs2]
    rw [div_eq_mul_inv]
  rw [step1, List.sum_map_mul_right]
  have step4 : (nn.map (fun x => (x - rmean nn) ^ 2)).sum
      = rvar nn * ((nn.length : ℝ) - 1) := by
    conv_rhs => rw [rvar]
    field_simp
  rw [step4]
  simp only [List.length_map]
  field_simp

theorem rstd_zscore (nn : List ℝ) (s : ℝ) (hlen : 2 ≤ nn.length)
    (hv : rvar nn ≠ 0) (hs2 : s ^ 2 = rvar nn) :
    rstd (nn.map (fun x => (x - rmean nn) / s)) = some 1 := by
  unfold rstd
  rw [if_neg (by simp only [List.length_map]; omega)]
  rw [rvar_zscore nn s hlen hv hs2, Real.sqrt_one]

/-!
## Column lookup and update lemmas for the normalizer frame -/

theorem lookupCol_updateCol (c : String) (ys : List RCell) :
    ∀ (tbl : RTable) (xs : List RCell), lookupCol tbl c = some xs →
      lookupCol (updateCol tbl c ys) c = some ys := by
  intro tbl
  induction tbl with
  | nil => intro xs h; simp [lookupCol] at h
  | cons p rest ih =>
    intro xs h
    by_cases hp : p.1 = c
    · simp [updateCol, hp, lookupCol]
    · simp only [updateCol, if_neg hp]
      rw [lookupCol, List.find?_cons_of_neg _ (by simp [hp])] at h
      rw [lookupCol, List.find?_cons_of_neg _ (by simp [hp])]
      exact ih xs h

theorem updateCol_self (c : String) :
    ∀ (tbl : RTable) (xs : List RCell), lookupCol tbl c = some xs →
      updateCol tbl c xs = tbl := by
  intro tbl
  induction tbl with
  | nil => intro xs h; simp [lookupCol] at h
  | cons p rest ih =>
    intro xs h
    by_cases hp : p.1 = c
    · have hx : xs = p.2 := by
        rw [lookupCol, List.find?_cons_of_pos _ (by simp [hp])] at h
        simpa using h.symm
      subst hx
      simp only [updateCol, if_pos hp]
      rw [show (c, p.2) = p from Prod.ext hp.symm rfl]
    · simp only [updateCol, if_neg hp]
      rw [lookupCol, List.find?_cons_of_neg _ (by simp [hp])] at h
      rw [ih xs h]

theorem normalizeData_single (st : RState) (tbl : RTable) (c : String)
    (xs : List RCell) (hproc : st.processedR = some tbl)
    (hc : c ∈ st.numericColumnsR) (hlook : lookupCol tbl c = some xs) :
    normalizeData st "zscore" (some [c])
      = ({ st with processedR := some (updateCol tbl c (zscoreColumn xs).1) },
         (if (zscoreColumn xs).2 then 1 else 0), true) := by
  unfold normalizeData
  rw [hproc]
  simp only [targetCols, if_neg (List.cons_ne_nil c [])]
  conv_lhs => rw [normalizeGo]
  rw [if_pos hc, hlook]
  simp only [normalizeGo]
  rw [show normColumn "zscore" xs = zscoreColumn xs from if_pos rfl]
  simp

/-!
## Claim C6 -/

/-- C6 (confirmed): for a numeric target column of `normalize_data` with the
z-score method: when the column's sample standard deviation (over non-null
values of `processed`) is non-zero, after the call the column's mean is
exactly 0 and its standard deviation exactly 1 (the float tolerance of the
claim is not needed in the exact real model) and the column is counted as
normalized; when the standard deviation is zero the column is left
completely unchanged and is not counted; the call succeeds in both cases. -/
theorem normalize_zscore_spec (st : RState) (tbl : RTable) (c : String)
    (xs : List RCell) (s : ℝ)
    (hproc : st.processedR = some tbl) (hc : c ∈ st.numericColumnsR)
    (hlook : lookupCol tbl c = some xs)
    (hstd : rstd (denull xs) = some s) :
    ((normalizeData st "zscore" (some [c])).2.2 = true)
    ∧ (s ≠ 0 →
        (normalizeData st "zscore" (some [c])).2.1 = 1
        ∧ ∃ tbl2 ys,
            (normalizeData st "zscore" (some [c])).1.processedR = some tbl2
            ∧ lookupCol tbl2 c = some ys
            ∧ rmean (denull ys) = 0 ∧ rstd (denull ys) = some 1)
    ∧ (s = 0 →
        (normalizeData st "zscore" (some [c])).2.1 = 0
        ∧ (normalizeData st "zscore" (some [c])).1.processedR = some tbl) := by
  have hlen : 2 ≤ (denull xs).length := by
    by_contra hcon
    rw [rstd, if_pos (by omega)] at hstd
    exact Option.noConfusion hstd
  have hs : s = Real.sqrt (rvar (denull xs)) := by
    rw [rstd, if_neg (by omega)] at hstd
    exact (Option.some.inj hstd).symm
  rw [normalizeData_single st tbl c xs hproc hc hlook]
  have hzc : zscoreColumn xs =
      (if s = 0 then (xs, false)
       else (xs.map (Option.map (fun x => (x - rmean (denull xs)) / s)), true)) := by
    simp only [zscoreColumn, hstd]
  refine ⟨rfl, ?_, ?_⟩
  · intro hsne
    rw [hzc, if_neg hsne]
    refine ⟨rfl, updateCol tbl c (xs.map (Option.map
      (fun x => (x - rmean (denull xs)) / s))), _, rfl,
      lookupCol_updateCol c _ tbl xs hlook, ?_, ?_⟩
    · rw [denull_map]
      exact rmean_zscore (denull xs) s (List.length_pos.mp (by omega))
    · rw [denull_map]
      have hv : rvar (denull xs) ≠ 0 := by
        intro h0
        exact hsne (by rw [hs, h0, Real.sqrt_zero])
      have hs2 : s ^ 2 = rvar (denull xs) := by
        rw [hs]
        exact Real.sq_sqrt (rvar_nonneg _ hlen)
      exact rstd_zscore (denull xs) s hlen hv hs2
  · intro hs0
    rw [hzc, if_pos hs0]
    exact ⟨rfl, by rw [updateCol_self c tbl xs hlook]⟩

/-- C6, witness: the theorem instantiated on the one-column frame holding
`[1, 3]` (standard deviation `√2 ≠ 0`: counted, success) and on the constant
frame holding `[5, 5]` (standard deviation 0: not counted). -/
theorem normalize_zscore_spec_witness :
    (normalizeData stR1 "zscore" (some ["a"])).2.2 = true
    ∧ (normalizeData stR1 "zscore" (some ["a"])).2.1 = 1
    ∧ (normalizeData stR3 "zscore" (some ["a"])).2.1 = 0 := by
  have hvar : rvar [(1:ℝ), 3] = 2 := by
    norm_num [rvar, rmean]
  have hstd1 : rstd (denull [some (1:ℝ), some 3]) = some (Real.sqrt 2) := by
    rw [show denull [some (1:ℝ), some 3] = [1, 3] from rfl, rstd,
      if_neg (by norm_num), hvar]
  have h1 := normalize_zscore_spec stR1 tblR1 "a" [some 1, some 3]
    (Real.sqrt 2) rfl (List.mem_singleton.mpr rfl) rfl hstd1
  have hs2ne : Real.sqrt 2 ≠ 0 := by
    rw [Real.sqrt_ne_zero']
    norm_num
  have hvar3 : rvar [(5:ℝ), 5] = 0 := by
    norm_num [rvar, rmean]
  have hstd3 : rstd (denull [some (5:ℝ), some 5]) = some 0 := by
    rw [show denull [some (5:ℝ), some 5] = [5, 5] from rfl, rstd,
      if_neg (by norm_num), hvar3, Real.sqrt_zero]
  have h3 := normalize_zscore_spec stR3 tblR3 "a" [some 5, some 5] 0 rfl
    (List.mem_singleton.mpr rfl) rfl hstd3
  exact ⟨h1.1, (h1.2.1 hs2ne).1, (h3.2.2 rfl).1⟩

/-!
## Claim C10 -/

/-- C10 (confirmed): for a numeric target column containing exactly one
non-null value, z-score normalization is not skipped: the `ddof = 1` sample
standard deviation is undefined (`NaN`, modelled as `none`), the guard
`std != 0` passes (`NaN != 0` is `True` in Python), every cell of the
column becomes null, the column is included in the normalized-column count,
and the call returns success. -/
theorem normalize_zscore_single_value (st : RState) (tbl : RTable)
    (c : String) (xs : List RCell)
    (hproc : st.processedR = some tbl) (hc : c ∈ st.numericColumnsR)
    (hlook : lookupCol tbl c = some xs)
    (hone : (denull xs).length = 1) :
    rstd (denull xs) = none
    ∧ (normalizeData st "zscore" (some [c])).2.2 = true
    ∧ (normalizeData st "zscore" (some [c])).2.1 = 1
    ∧ (normalizeData st "zscore" (some [c])).1.processedR
        = some (updateCol tbl c (xs.map (fun _ => none))) := by
  have hstd : rstd (denull xs) = none := by
    rw [rstd, if_pos (by omega)]
  rw [normalizeData_single st tbl c xs hproc hc hlook]
  have hzc : zscoreColumn xs = (xs.map (fun _ => none), true) := by
    simp only [zscoreColumn, hstd]
  rw [hzc]
  exact ⟨hstd, rfl, rfl, rfl⟩

/-- C10, witness: on the one-column frame holding `[5, null]` — a single
non-null value — the call succeeds and reports one normalized column. -/
theorem normalize_zscore_single_value_witness :
    (normalizeData stR2 "zscore" (some ["a"])).2.2 = true
    ∧ (normalizeData stR2 "zscore" (some ["a"])).2.1 = 1 := by
  have h := normalize_zscore_single_value stR2 tblR2 "a" [some 5, none] rfl
    (List.mem_singleton.mpr rfl) rfl
    (by rw [show denull [some (5:ℝ), none] = [5] from rfl]; rfl)
  exact ⟨h.2.1, h.2.2.1⟩

end DataPre
